import Mathlib

/-!
Verification of the category-tree manager of an e-commerce backend
(`src/services/category.service.ts` and the category Mongoose model).

The document store is modelled as a list of category records in natural
(insertion) order.  `findById` is Mongo's `findById` (first record with the
given id), `updateById` is `findByIdAndUpdate` (updates every record with the
given id; ids are unique in the stores of interest, as Mongo's `_id` is),
and saving a fetched-and-modified document writes back exactly the modified
paths, as Mongoose's change tracking does.
-/

/-- A category document.  Fields not used by any verified operation
(`slug`, `path`, `description`, `productCount`) are omitted. -/
structure Category where
  id : Nat
  name : String
  parentId : Option Nat
  ancestors : List Nat
  level : Nat
  childrenCount : Int
  isActive : Bool
  order : Int
deriving Repr, DecidableEq

abbrev Store := List Category

/-- Embeds `Category.findById`. -/
def findById (s : Store) (i : Nat) : Option Category :=
  s.find? (fun c => c.id == i)

/-- Embeds `Category.findByIdAndUpdate` with an update that rewrites some fields. -/
def updateById (s : Store) (i : Nat) (f : Category → Category) : Store :=
  s.map (fun c => if c.id == i then f c else c)

/-- Embeds `findByIdAndUpdate(i, \x7b $inc: \x7b childrenCount: d \x7d \x7d)`; a no-op
when the id does not resolve. -/
def incChildren (s : Store) (i : Nat) (d : Int) : Store :=
  updateById s i (fun c => { c with childrenCount := c.childrenCount + d })

/-- Models `doc.save()` after assigning `parentId`, `ancestors` and `level` on
a fetched document: Mongoose writes back the modified paths. -/
def saveMoved (s : Store) (c : Category) : Store :=
  updateById s c.id (fun x =>
    { x with parentId := c.parentId, ancestors := c.ancestors, level := c.level })

/-- Number of records whose `parentId` references `p`. -/
def countChildren (s : Store) (p : Nat) : Nat :=
  (s.filter (fun c => c.parentId == some p)).length

/-- The store has pairwise distinct ids (Mongo `_id` uniqueness). -/
def NodupIds (s : Store) : Prop := (s.map Category.id).Nodup

instance (s : Store) : Decidable (NodupIds s) := by
  unfold NodupIds; infer_instance

/-- Stable insertion into a sorted list, used to model Mongo's `sort()`. -/
def insertLe (le : Category → Category → Bool) (c : Category) :
    List Category → List Category
  | [] => [c]
  | d :: rest => if le c d then c :: d :: rest else d :: insertLe le c rest

/-- Insertion sort modelling Mongo's `sort()`; only the membership of the
result matters for the verified properties. -/
def sortLe (le : Category → Category → Bool) : List Category → List Category
  | [] => []
  | c :: rest => insertLe le c (sortLe le rest)

/-- Comparator for `.sort` on (order, name). -/
def leOrderName (c d : Category) : Bool :=
  decide (c.order < d.order) || (c.order == d.order && decide (c.name ≤ d.name))

/-- Comparator for `.sort` on level. -/
def leLevel (c d : Category) : Bool := c.level ≤ d.level

/-- Comparator for `.sort` on (level, order, name). -/
def leLevelOrderName (c d : Category) : Bool :=
  decide (c.level < d.level) ||
    (c.level == d.level &&
      (decide (c.order < d.order) ||
        (c.order == d.order && decide (c.name ≤ d.name))))

/-- Errors thrown by the service (`throw new Error(...)`). -/
inductive CatErr where
  | notFound
  | parentNotFound
deriving Repr, DecidableEq

/-- Embeds `CategoryService.createCategory`.  `newId` is the fresh `_id` Mongo
assigns to the inserted document. -/
def createCategory (s : Store) (newId : Nat) (nm : String)
    (parentId : Option Nat) (isActive : Bool) (ord : Int) : Store × Category :=
  let base : Category :=
    { id := newId, name := nm, parentId := parentId, ancestors := [],
      level := 0, childrenCount := 0, isActive := isActive, order := ord }
  let cat :=
    match parentId with
    | some pid =>
      match findById s pid with
      | some parent =>
        { base with ancestors := parent.ancestors ++ [pid],
                    level := parent.level + 1 }
      | none => base
    | none => base
  let s1 := s ++ [cat]
  let s2 :=
    match parentId with
    | some pid => incChildren s1 pid 1
    | none => s1
  (s2, cat)

/-- Embeds `CategoryService.getChildren`. -/
def getChildren (s : Store) (i : Nat) : List Category :=
  sortLe leOrderName (s.filter (fun c => c.parentId == some i && c.isActive))

/-- Embeds `CategoryService.getAncestors`: an unresolved id returns `[]`, else
find the documents whose id is in `category.ancestors`. -/
def getAncestors (s : Store) (i : Nat) : List Category :=
  match findById s i with
  | none => []
  | some c =>
    sortLe leLevel (s.filter (fun x => c.ancestors.contains x.id && x.isActive))

/-- Embeds `CategoryService.getDescendants`. -/
def getDescendants (s : Store) (i : Nat) : List Category :=
  sortLe leLevelOrderName
    (s.filter (fun c => c.ancestors.contains i && c.isActive))

/-- Embeds `Category.find` on ancestors-containment in `updateDescendants`
(no `isActive` filter there). -/
def descendantsOf (s : Store) (cid : Nat) : List Category :=
  s.filter (fun c => c.ancestors.contains cid)

/-- The write `updateDescendants` issues for one found descendant. -/
def updCat (anc : List Nat) (lvl : Nat) (c : Category) : Category :=
  { c with ancestors := anc, level := lvl }

/-- The `for (const descendant of descendants)` loop body of
`CategoryService.updateDescendants`: update the descendant, then recurse
into it (`rec` is the recursive call at the remaining fuel). -/
def goDesc (rec : Store → Nat → List Nat → Nat → Option Store) :
    List Category → Store → Nat → List Nat → Nat → Option Store
  | [], s, _, _, _ => some s
  | d :: rest, s, cid, newAnc, newLvl =>
    match rec (updateById s d.id (updCat (newAnc ++ [cid]) (newLvl + 1)))
        d.id (newAnc ++ [cid]) (newLvl + 1) with
    | none => none
    | some s2 => goDesc rec rest s2 cid newAnc newLvl

/-- Embeds `CategoryService.updateDescendants`, fuelled: the source recursion has no
termination argument of its own (it does not terminate on cyclic stores), so
the embedding consumes one unit of fuel per recursive call and answers `none`
when the fuel runs out. -/
def updateDescendants : Nat → Store → Nat → List Nat → Nat → Option Store
  | 0, _, _, _, _ => none
  | f + 1, s, cid, newAnc, newLvl =>
    goDesc (updateDescendants f) (descendantsOf s cid) s cid newAnc newLvl

/-- Embeds `CategoryService.moveCategory`.  Returns `none` when the descendant
fixup runs out of fuel; otherwise the store after all writes together with
the thrown error or the returned (post-move, pre-fixup) document. -/
def moveCategory (fuel : Nat) (s : Store) (cid : Nat)
    (newParentId : Option Nat) : Option (Store × Except CatErr Category) :=
  match findById s cid with
  | none => some (s, .error .notFound)
  | some cat =>
    let s1 :=
      match cat.parentId with
      | some op => incChildren s op (-1)
      | none => s
    match newParentId with
    | some np =>
      match findById s1 np with
      | none => some (s1, .error .parentNotFound)
      | some newParent =>
        let cat' := { cat with parentId := some np,
                               ancestors := newParent.ancestors ++ [np],
                               level := newParent.level + 1 }
        let s2 := incChildren s1 np 1
        let s3 := saveMoved s2 cat'
        match updateDescendants fuel s3 cid cat'.ancestors cat'.level with
        | none => none
        | some s4 => some (s4, .ok cat')
    | none =>
      let cat' := { cat with parentId := none, ancestors := [], level := 0 }
      let s3 := saveMoved s1 cat'
      match updateDescendants fuel s3 cid cat'.ancestors cat'.level with
      | none => none
      | some s4 => some (s4, .ok cat')

/-- Embeds `CategoryService.deleteCategory`. -/
def deleteCategory (s : Store) (cid : Nat) : Store × Except CatErr Unit :=
  match findById s cid with
  | none => (s, .error .notFound)
  | some cat =>
    let children := s.filter (fun c => c.parentId == some cid)
    let s1 := children.foldl
      (fun st ch => updateById st ch.id (fun c =>
        { c with parentId := cat.parentId, ancestors := cat.ancestors,
                 level := cat.level })) s
    let s2 :=
      match cat.parentId with
      | some p => incChildren s1 p (-1)
      | none => s1
    (s2.filter (fun c => !(c.id == cid)), .ok ())

/-- Embeds `categorySchema.methods.getFullPath`: batch-find the ancestor
documents (no sort, hence natural store order) and join the names with
`" > "`. -/
def getFullPath (s : Store) (c : Category) : String :=
  let ancNames := (s.filter (fun x => c.ancestors.contains x.id)).map (·.name)
  String.intercalate " > " (ancNames ++ [c.name])

/-- Embeds `CategoryService.getCategoryWithPath`. -/
def getCategoryWithPath (s : Store) (cid : Nat) : Option (Category × String) :=
  match findById s cid with
  | none => none
  | some c => some (c, getFullPath s c)

instance {ε α : Type} [DecidableEq ε] [DecidableEq α] : DecidableEq (Except ε α) :=
  fun a b =>
    match a, b with
    | .error x, .error y =>
      if h : x = y then .isTrue (by rw [h])
      else .isFalse (fun hc => h (by injection hc))
    | .error _, .ok _ => .isFalse (fun hc => Except.noConfusion hc)
    | .ok _, .error _ => .isFalse (fun hc => Except.noConfusion hc)
    | .ok x, .ok y =>
      if h : x = y then .isTrue (by rw [h])
      else .isFalse (fun hc => h (by injection hc))

/-- Helper to build a concrete active category record with display order 0. -/
def mkCat (i : Nat) (nm : String) (p : Option Nat) (anc : List Nat)
    (lvl : Nat) (cnt : Int) : Category :=
  { id := i, name := nm, parentId := p, ancestors := anc, level := lvl,
    childrenCount := cnt, isActive := true, order := 0 }

/-- Spec-side reachability: `r` occurs in the chain obtained from node `y` by
repeatedly following `parentId` links. -/
inductive InChain (s : Store) : Nat → Nat → Prop where
  | parent : ∀ {y r c}, findById s y = some c → c.parentId = some r →
      InChain s r y
  | trans : ∀ {y r p c}, findById s y = some c → c.parentId = some p →
      InChain s r p → InChain s r y

/-- Invariant 2 of the spec, together with parent resolvability, as an
executable check: a node with a parent stores exactly its parent's ancestors
followed by the parent id, and a root stores the empty list. -/
def wfAnc (s : Store) : Bool :=
  s.all (fun c =>
    match c.parentId with
    | some p =>
      match findById s p with
      | some pc => c.ancestors == pc.ancestors ++ [p]
      | none => false
    | none => c.ancestors == [])

/-- Spec-side rendering of the claim "fullPath is the ` > `-joined names of
the node's ancestors in root-first order followed by the node's own name":
the `ancestors` field is the root-first chain, so resolve each id in that
order. -/
def rootFirstFullPath (s : Store) (c : Category) : String :=
  String.intercalate " > "
    ((c.ancestors.filterMap (fun a => (findById s a).map (·.name))) ++ [c.name])

/-- Ids of the subtree rooted at `n`, measured on store `s`: `n` itself and
every record listing `n` among its ancestors. -/
abbrev subtreeP (s : Store) (n : Nat) : Nat → Prop :=
  fun x => x = n ∨ ∃ c ∈ s, c.id = x ∧ n ∈ c.ancestors

/-- The id set `S` is ancestor-closed in `s`: a record with an ancestor in
`S` has its own id in `S`. -/
abbrev Hclosed (S : Nat → Prop) (s : Store) : Prop :=
  ∀ c ∈ s, (∃ a ∈ c.ancestors, S a) → S c.id

/-- Pointwise evolution of one record under descendant-fixup writes for the
id set `S`: the id is stable, records with no ancestor in `S` are untouched,
and a rewritten record has an ancestor in `S`. -/
def EvolR (S : Nat → Prop) (c c' : Category) : Prop :=
  c'.id = c.id ∧ ((∀ a ∈ c.ancestors, ¬ S a) → c' = c) ∧
    (c' = c ∨ ∃ a ∈ c'.ancestors, S a)

/-- Store evolution under descendant-fixup writes confined to the id set `S`. -/
def Evol (S : Nat → Prop) (s s' : Store) : Prop :=
  List.Forall₂ (EvolR S) s s'

/-- Failing input for the move fixup: `P(0)` a root, `M(1)` a root whose
subtree is `C(2)` with child `G(3)`; the move puts `M` under `P`. -/
def mvStore : Store :=
  [mkCat 0 "p" none [] 0 0, mkCat 1 "m" none [] 0 1,
   mkCat 2 "c" (some 1) [1] 1 1, mkCat 3 "g" (some 2) [1, 2] 2 0]

/-- Failing input for delete and childrenCount: the chain
`e(1) → s(2) → i(3) → x(4)`, every count consistent. -/
def chainStore : Store :=
  [mkCat 1 "e" none [] 0 1, mkCat 2 "s" (some 1) [1] 1 1,
   mkCat 3 "i" (some 2) [1, 2] 2 1, mkCat 4 "x" (some 3) [1, 2, 3] 3 0]

/-- A store with a single root node, used for unresolved-id reads. -/
def oneStore : Store := [mkCat 1 "e" none [] 0 0]

/-- A root with an inactive child: the child's parent chain passes through
the root but `getDescendants` filters it out. -/
def inactStore : Store :=
  [mkCat 1 "r" none [] 0 1,
   { id := 2, name := "h", parentId := some 1, ancestors := [1], level := 1,
     childrenCount := 0, isActive := false, order := 0 }]

/-- An active chain `r(1) → m(2) → g(3)` in creation order. -/
def actChainStore : Store :=
  [mkCat 1 "r" none [] 0 1, mkCat 2 "m" (some 1) [1] 1 1,
   mkCat 3 "g" (some 2) [1, 2] 2 0]

/-- A store in which an ancestor appears after its descendant: `b(2)` (child
of `a(1)`) precedes `a(1)`; `c(3)` is a child of `b`. -/
def outOfOrderStore : Store :=
  [mkCat 2 "b" (some 1) [1] 1 1, mkCat 1 "a" none [] 0 1,
   mkCat 3 "c" (some 2) [1, 2] 2 0]

/-- Scenario E: Electronics > Smartphones > iPhone, in creation order. -/
def scenEStore : Store :=
  [mkCat 1 "Electronics" none [] 0 1, mkCat 2 "Smartphones" (some 1) [1] 1 1,
   mkCat 3 "iPhone" (some 2) [1, 2] 2 0]

/-- Round-trip input: root `a(1)` with child `n(2)`, root `p(3)`, and `d(4)`
a child of `n`. -/
def rtStore : Store :=
  [mkCat 1 "a" none [] 0 1, mkCat 2 "n" (some 1) [1] 1 1,
   mkCat 3 "p" none [] 0 0, mkCat 4 "d" (some 2) [1, 2] 2 0]

/-- The store after moving `n(2)` under `p(3)` in `rtStore`. -/
def rtStore1 : Store :=
  [mkCat 1 "a" none [] 0 0, mkCat 2 "n" (some 3) [3] 1 1,
   mkCat 3 "p" none [] 0 1, mkCat 4 "d" (some 2) [3, 2] 2 0]

/-- The record returned by the first move of the round trip. -/
def rtCat1 : Category := mkCat 2 "n" (some 3) [3] 1 1

/-- The store after moving `n(2)` back under `a(1)`. -/
def rtStore2 : Store :=
  [mkCat 1 "a" none [] 0 1, mkCat 2 "n" (some 1) [1] 1 1,
   mkCat 3 "p" none [] 0 0, mkCat 4 "d" (some 2) [1, 2] 2 0]

/-- The record returned by the second move of the round trip. -/
def rtCat2 : Category := mkCat 2 "n" (some 1) [1] 1 1

/-- Input for the failed-move claim: a root `r(1)` with one child `k(2)`. -/
def failStore : Store :=
  [mkCat 1 "r" none [] 0 1, mkCat 2 "k" (some 1) [1] 1 0]

/-- The record `createCategory` builds when the supplied parent id does not
resolve: defaults only, with the dangling parent reference stored. -/
def orphanNode (newId : Nat) (nm : String) (pid : Nat) (act : Bool)
    (ord : Int) : Category :=
  { id := newId, name := nm, parentId := some pid, ancestors := [],
    level := 0, childrenCount := 0, isActive := act, order := ord }

theorem findById_id {s : Store} {i : Nat} {c : Category}
    (h : findById s i = some c) : c.id = i := by
  have := List.find?_some h
  simpa using this

theorem findById_mem {s : Store} {i : Nat} {c : Category}
    (h : findById s i = some c) : c ∈ s :=
  List.mem_of_find?_eq_some h

theorem findById_eq_none {s : Store} {i : Nat} :
    findById s i = none ↔ ∀ c ∈ s, c.id ≠ i := by
  simp [findById, List.find?_eq_none]

theorem nodupIds_cons {a : Category} {t : Store} (h : NodupIds (a :: t)) :
    a.id ∉ t.map Category.id ∧ NodupIds t := by
  simpa [NodupIds] using h

theorem nodup_findById {s : Store} (h : NodupIds s) {c : Category}
    (hc : c ∈ s) : findById s c.id = some c := by
  induction s with
  | nil => cases hc
  | cons a t ih =>
    rcases List.mem_cons.mp hc with rfl | hc'
    · simp [findById]
    · rcases nodupIds_cons h with ⟨hniq, ht⟩
      have hne : a.id ≠ c.id := by
        intro he
        exact hniq (he ▸ List.mem_map_of_mem Category.id hc')
      simpa [findById, List.find?_cons, hne] using ih ht hc'

theorem nodup_unique_id {s : Store} (h : NodupIds s) {a b : Category}
    (ha : a ∈ s) (hb : b ∈ s) (hid : a.id = b.id) : a = b := by
  have h1 := nodup_findById h ha
  have h2 := nodup_findById h hb
  rw [hid] at h1
  rw [h1] at h2
  exact Option.some.inj h2

theorem findById_updateById (s : Store) (i j : Nat) (f : Category → Category)
    (hf : ∀ x, (f x).id = x.id) :
    findById (updateById s i f) j =
      (findById s j).map (fun c => if c.id == i then f c else c) := by
  induction s with
  | nil => rfl
  | cons a t ih =>
    have hid : (if a.id == i then f a else a).id = a.id := by
      split <;> simp [hf]
    by_cases hj : a.id = j
    · have h1 : ((if a.id == i then f a else a).id == j) = true := by
        rw [hid]; exact beq_iff_eq.mpr hj
      have h2 : (a.id == j) = true := beq_iff_eq.mpr hj
      rw [updateById, List.map_cons, findById,
          @List.find?_cons_of_pos _ (fun c : Category => c.id == j) _ _ h1,
          findById, @List.find?_cons_of_pos _ (fun c : Category => c.id == j) _ _ h2]
      rfl
    · have h1 : ¬ (((if a.id == i then f a else a).id == j) = true) := by
        rw [hid]; simpa using hj
      have h2 : ¬ ((a.id == j) = true) := by simpa using hj
      rw [updateById, List.map_cons, findById,
          @List.find?_cons_of_neg _ (fun c : Category => c.id == j) _ _ h1,
          findById, @List.find?_cons_of_neg _ (fun c : Category => c.id == j) _ _ h2]
      simpa [findById, updateById] using ih

theorem updateById_ids (s : Store) (i : Nat) (f : Category → Category)
    (hf : ∀ x, (f x).id = x.id) :
    (updateById s i f).map Category.id = s.map Category.id := by
  induction s with
  | nil => rfl
  | cons a t ih =>
    have hid : (if a.id == i then f a else a).id = a.id := by
      split <;> simp [hf]
    simp only [updateById, List.map_cons] at *
    rw [hid, ih]

theorem updateById_notMem (s : Store) (i : Nat) (f : Category → Category)
    (h : ∀ c ∈ s, c.id ≠ i) : updateById s i f = s := by
  induction s with
  | nil => rfl
  | cons a t ih =>
    have ha : (a.id == i) = false := by simpa using h a (List.mem_cons_self a t)
    have ht := ih (fun c hc => h c (List.mem_cons_of_mem a hc))
    simp only [updateById, List.map_cons] at *
    rw [if_neg (by simp [ha]), ht]

theorem countChildren_updateById (s : Store) (i : Nat) (f : Category → Category)
    (hf : ∀ x, (f x).parentId = x.parentId) (p : Nat) :
    countChildren (updateById s i f) p = countChildren s p := by
  induction s with
  | nil => rfl
  | cons a t ih =>
    have hpid : (if a.id == i then f a else a).parentId = a.parentId := by
      split <;> simp [hf]
    simp only [countChildren, updateById, List.map_cons, List.filter_cons,
      hpid] at *
    split <;> simpa using ih

theorem mem_insertLe {le : Category → Category → Bool} {c x : Category}
    {l : List Category} : x ∈ insertLe le c l ↔ x = c ∨ x ∈ l := by
  induction l with
  | nil => simp [insertLe]
  | cons d rest ih =>
    simp only [insertLe]
    split
    · simp
    · simp only [List.mem_cons, ih]
      tauto

theorem mem_sortLe {le : Category → Category → Bool} {x : Category}
    {l : List Category} : x ∈ sortLe le l ↔ x ∈ l := by
  induction l with
  | nil => simp [sortLe]
  | cons c rest ih => simp [sortLe, mem_insertLe, ih]

theorem evolR_refl (S : Nat → Prop) (c : Category) : EvolR S c c :=
  ⟨rfl, fun _ => rfl, Or.inl rfl⟩

theorem evol_refl (S : Nat → Prop) (s : Store) : Evol S s s :=
  List.forall₂_same.mpr (fun c _ => evolR_refl S c)

theorem evolR_trans {S : Nat → Prop} {a b c : Category}
    (h1 : EvolR S a b) (h2 : EvolR S b c) : EvolR S a c := by
  obtain ⟨hid1, hun1, hw1⟩ := h1
  obtain ⟨hid2, hun2, hw2⟩ := h2
  refine ⟨hid2.trans hid1, ?_, ?_⟩
  · intro hna
    have hb : b = a := hun1 hna
    have hc : c = b := hun2 (by rw [hb]; exact hna)
    exact hc.trans hb
  · rcases hw2 with rfl | hw2
    · exact hw1
    · exact Or.inr hw2

theorem evol_trans {S : Nat → Prop} {s t u : Store}
    (h1 : Evol S s t) (h2 : Evol S t u) : Evol S s u := by
  induction h1 generalizing u with
  | nil => cases h2; exact List.Forall₂.nil
  | cons hR _ ih =>
    cases h2 with
    | cons hR2 hrest2 => exact List.Forall₂.cons (evolR_trans hR hR2) (ih hrest2)

theorem evol_ids {S : Nat → Prop} {s t : Store} (h : Evol S s t) :
    t.map Category.id = s.map Category.id := by
  induction h with
  | nil => rfl
  | cons hR _ ih => simp [hR.1, ih]

theorem evol_nodupIds {S : Nat → Prop} {s t : Store} (h : Evol S s t)
    (hnd : NodupIds s) : NodupIds t := by
  unfold NodupIds
  rw [evol_ids h]
  exact hnd

theorem evol_mem_right {S : Nat → Prop} {s t : Store} (h : Evol S s t)
    {c' : Category} (hc : c' ∈ t) : ∃ c ∈ s, EvolR S c c' := by
  induction h with
  | nil => cases hc
  | cons hR hrest ih =>
    rcases List.mem_cons.mp hc with rfl | hc'
    · exact ⟨_, List.mem_cons_self _ _, hR⟩
    · obtain ⟨c, hm, hr⟩ := ih hc'
      exact ⟨c, List.mem_cons_of_mem _ hm, hr⟩

theorem evol_hclosed {S : Nat → Prop} {s t : Store} (hev : Evol S s t)
    (hcl : Hclosed S s) : Hclosed S t := by
  intro c' hc' hex
  obtain ⟨c, hm, hR⟩ := evol_mem_right hev hc'
  by_cases hall : ∀ a ∈ c.ancestors, ¬ S a
  · have hcc : c' = c := hR.2.1 hall
    rw [hR.1]
    rcases hcc ▸ hex with ⟨a, ha, hSa⟩
    exact hcl c hm ⟨a, ha, hSa⟩
  · push_neg at hall
    rw [hR.1]
    obtain ⟨a, ha, hSa⟩ := hall
    exact hcl c hm ⟨a, ha, hSa⟩

theorem evol_findById_frame {S : Nat → Prop} {s t : Store} (hev : Evol S s t) :
    NodupIds s → ∀ {c : Category}, c ∈ s → (∀ a ∈ c.ancestors, ¬ S a) →
    findById t c.id = some c := by
  induction hev with
  | nil => intro _ c hc; cases hc
  | @cons a b l1 l2 hR hrest ih =>
    intro hnd c hc hanc
    rcases nodupIds_cons hnd with ⟨hna, hnt⟩
    rcases List.mem_cons.mp hc with rfl | hc'
    · have hb : b = c := hR.2.1 hanc
      rw [hb]
      simp [findById]
    · have hbid : ¬ ((b.id == c.id) = true) := by
        simp only [beq_iff_eq]
        intro he
        rw [hR.1] at he
        exact hna (he ▸ List.mem_map_of_mem Category.id hc')
      rw [findById, @List.find?_cons_of_neg _ (fun x : Category => x.id == c.id) _ _ hbid]
      simpa [findById] using ih hnt hc' hanc

theorem evol_map {S : Nat → Prop} {g : Category → Category} {s0 s : Store}
    (hev : Evol S s0 s)
    (h : ∀ c0 c, c0 ∈ s0 → EvolR S c0 c → EvolR S c0 (g c)) :
    Evol S s0 (s.map g) := by
  induction hev with
  | nil => exact .nil
  | @cons a b l1 l2 hR hrest ih =>
    exact .cons (h a b (List.mem_cons_self _ _) hR)
      (ih (fun c0 c hm hr => h c0 c (List.mem_cons_of_mem _ hm) hr))

theorem evol_updateById_write {S : Nat → Prop} {s0 s : Store}
    (hnd : NodupIds s0) (hev : Evol S s0 s) {d : Category} (hd : d ∈ s0)
    (hdanc : ∃ a ∈ d.ancestors, S a) {f : Category → Category}
    (hfid : ∀ x, (f x).id = x.id)
    (hfanc : ∀ x, ∃ a ∈ (f x).ancestors, S a) :
    Evol S s0 (updateById s d.id f) := by
  refine evol_map hev ?_
  intro c0 c hc0 hR
  by_cases hcd : c.id = d.id
  · rw [if_pos (beq_iff_eq.mpr hcd)]
    have hc0d : c0 = d := by
      refine nodup_unique_id hnd hc0 hd ?_
      rw [← hR.1, hcd]
    refine ⟨by rw [hfid, hR.1], ?_, Or.inr (hfanc c)⟩
    · intro hall
      exfalso
      obtain ⟨a, ha, hSa⟩ := hdanc
      exact hall a (by rw [hc0d]; exact ha) hSa
  · rw [if_neg (by simpa using hcd)]
    exact hR

theorem goDesc_frame {S : Nat → Prop} {cid : Nat}
    (rec : Store → Nat → List Nat → Nat → Option Store)
    (hrec : ∀ s c A l t, S c → Hclosed S s → NodupIds s →
      rec s c A l = some t → Evol S s t) :
    ∀ (ds : List Category) {s0 s : Store} {A : List Nat} {l : Nat} {t : Store},
      S cid → Hclosed S s0 → NodupIds s0 →
      (∀ d ∈ ds, d ∈ s0 ∧ cid ∈ d.ancestors) →
      Evol S s0 s →
      goDesc rec ds s cid A l = some t → Evol S s0 t := by
  intro ds
  induction ds with
  | nil =>
    intro s0 s A l t _ _ _ _ hev hgo
    simp only [goDesc, Option.some.injEq] at hgo
    rw [← hgo]
    exact hev
  | cons d rest ih =>
    intro s0 s A l t hS hcl hnd hds hev hgo
    obtain ⟨hdmem, hdanc⟩ := hds d (List.mem_cons_self _ _)
    have hev1 : Evol S s0 (updateById s d.id (updCat (A ++ [cid]) (l + 1))) :=
      evol_updateById_write hnd hev hdmem ⟨cid, hdanc, hS⟩ (fun _ => rfl)
        (fun x => ⟨cid, by simp [updCat], hS⟩)
    have hSd : S d.id := hcl d hdmem ⟨cid, hdanc, hS⟩
    cases hud : rec (updateById s d.id (updCat (A ++ [cid]) (l + 1)))
        d.id (A ++ [cid]) (l + 1) with
    | none =>
      simp only [goDesc, hud] at hgo
      exact Option.noConfusion hgo
    | some t1 =>
      simp only [goDesc, hud] at hgo
      have hcl1 : Hclosed S (updateById s d.id (updCat (A ++ [cid]) (l + 1))) :=
        evol_hclosed hev1 hcl
      have hnd1 : NodupIds (updateById s d.id (updCat (A ++ [cid]) (l + 1))) :=
        evol_nodupIds hev1 hnd
      have hev2 := hrec _ _ _ _ _ hSd hcl1 hnd1 hud
      exact ih hS hcl hnd (fun x hx => hds x (List.mem_cons_of_mem _ hx))
        (evol_trans hev1 hev2) hgo

theorem updateDescendants_frame {S : Nat → Prop} :
    ∀ (f : Nat) {s : Store} {c : Nat} {A : List Nat} {l : Nat} {t : Store},
      S c → Hclosed S s → NodupIds s →
      updateDescendants f s c A l = some t → Evol S s t := by
  intro f
  induction f with
  | zero =>
    intro s c A l t _ _ _ h
    simp [updateDescendants] at h
  | succ f ih =>
    intro s c A l t hS hcl hnd h
    simp only [updateDescendants] at h
    refine goDesc_frame (updateDescendants f)
      (fun s' c' A' l' t' hS' hcl' hnd' h' => ih hS' hcl' hnd' h')
      (descendantsOf s c) hS hcl hnd ?_ (evol_refl S s) h
    intro d hd
    have hm := List.mem_filter.mp hd
    exact ⟨hm.1, by simpa using hm.2⟩

theorem updateDescendants_cycle :
    ∀ (f : Nat) (s : Store) (A : List Nat) (l : Nat) (c : Category)
      (rest : Store), s = c :: rest → c.id ∈ c.ancestors →
      updateDescendants f s c.id A l = none := by
  intro f
  induction f with
  | zero => intros; simp [updateDescendants]
  | succ f ih =>
    intro s A l c rest hs hanc
    subst hs
    have hdesc : descendantsOf (c :: rest) c.id = c :: descendantsOf rest c.id := by
      simp [descendantsOf, List.filter_cons, hanc]
    have hupd : updateById (c :: rest) c.id (updCat (A ++ [c.id]) (l + 1)) =
        updCat (A ++ [c.id]) (l + 1) c ::
          updateById rest c.id (updCat (A ++ [c.id]) (l + 1)) := by
      simp [updateById]
    have hmem : (updCat (A ++ [c.id]) (l + 1) c).id ∈
        (updCat (A ++ [c.id]) (l + 1) c).ancestors := by
      simp [updCat]
    have hnone := ih
      (updateById (c :: rest) c.id (updCat (A ++ [c.id]) (l + 1)))
      (A ++ [c.id]) (l + 1) (updCat (A ++ [c.id]) (l + 1) c)
      (updateById rest c.id (updCat (A ++ [c.id]) (l + 1)))
      hupd hmem
    have hid : (updCat (A ++ [c.id]) (l + 1) c).id = c.id := rfl
    rw [hid] at hnone
    simp only [updateDescendants, hdesc, goDesc, hnone]

theorem wfAnc_spec {s : Store} (h : wfAnc s = true) {c : Category}
    (hc : c ∈ s) :
    (∀ p, c.parentId = some p →
      ∃ pc, findById s p = some pc ∧ c.ancestors = pc.ancestors ++ [p]) ∧
    (c.parentId = none → c.ancestors = []) := by
  have hb := List.all_eq_true.mp h c hc
  constructor
  · intro p hp
    simp only [hp] at hb
    cases hfind : findById s p with
    | none => simp only [hfind] at hb; cases hb
    | some pc =>
      simp only [hfind] at hb
      exact ⟨pc, rfl, by simpa using hb⟩
  · intro hp
    simp only [hp] at hb
    simpa using hb

theorem mem_ancestors_inChain {s : Store} (hnd : NodupIds s)
    (hwf : wfAnc s = true) :
    ∀ (n : Nat) (c : Category), c ∈ s → c.ancestors.length ≤ n →
      ∀ r ∈ c.ancestors, InChain s r c.id := by
  intro n
  induction n with
  | zero =>
    intro c _ hlen r hr
    have hz : c.ancestors = [] :=
      List.eq_nil_of_length_eq_zero (Nat.le_zero.mp hlen)
    rw [hz] at hr
    cases hr
  | succ n ih =>
    intro c hc hlen r hr
    cases hp : c.parentId with
    | none =>
      have hz : c.ancestors = [] := (wfAnc_spec hwf hc).2 hp
      rw [hz] at hr
      cases hr
    | some p =>
      obtain ⟨pc, hfind, hanc⟩ := (wfAnc_spec hwf hc).1 p hp
      have hcfind : findById s c.id = some c := nodup_findById hnd hc
      rw [hanc] at hr
      rcases List.mem_append.mp hr with hr' | hr'
      · have hpcmem : pc ∈ s := findById_mem hfind
        have hlen' : pc.ancestors.length ≤ n := by
          rw [hanc] at hlen
          simp only [List.length_append, List.length_singleton] at hlen
          omega
        have hchain := ih pc hpcmem hlen' r hr'
        rw [findById_id hfind] at hchain
        exact InChain.trans hcfind hp hchain
      · have hrp : r = p := by simpa using hr'
        exact hrp ▸ InChain.parent hcfind hp

theorem inChain_mem_ancestors {s : Store} (hwf : wfAnc s = true) {r y : Nat}
    (h : InChain s r y) : ∀ c, findById s y = some c → r ∈ c.ancestors := by
  induction h with
  | @parent y r c0 hfind hp =>
    intro c hc
    have hcc : c0 = c := by
      rw [hfind] at hc
      exact Option.some.inj hc
    obtain ⟨pc, _, hanc⟩ := (wfAnc_spec hwf (findById_mem hfind)).1 r hp
    rw [← hcc, hanc]
    simp
  | @trans y r p c0 hfind hp _ ih =>
    intro c hc
    have hcc : c0 = c := by
      rw [hfind] at hc
      exact Option.some.inj hc
    obtain ⟨pc, hfindp, hanc⟩ := (wfAnc_spec hwf (findById_mem hfind)).1 p hp
    rw [← hcc, hanc]
    exact List.mem_append_left _ (ih pc hfindp)

theorem nodupIds_updateById {s : Store} {i : Nat} {f : Category → Category}
    (hfid : ∀ x, (f x).id = x.id) (h : NodupIds s) :
    NodupIds (updateById s i f) := by
  unfold NodupIds
  rw [updateById_ids s i f hfid]
  exact h

theorem hclosed_updateById_keep {S : Nat → Prop} {s : Store} {i : Nat}
    {f : Category → Category} (hfid : ∀ x, (f x).id = x.id)
    (hfanc : ∀ x, (f x).ancestors = x.ancestors)
    (h : Hclosed S s) : Hclosed S (updateById s i f) := by
  intro c' hc' hex
  obtain ⟨c, hm, hceq⟩ := List.mem_map.mp hc'
  subst hceq
  by_cases hci : (c.id == i) = true
  · simp only [hci, if_true] at hex ⊢
    rw [hfid]
    rw [hfanc] at hex
    exact h c hm hex
  · simp only [hci, Bool.false_eq_true, if_false] at hex ⊢
    exact h c hm hex

theorem hclosed_updateById_inS {S : Nat → Prop} {s : Store} {i : Nat}
    {f : Category → Category} (hfid : ∀ x, (f x).id = x.id) (hSi : S i)
    (h : Hclosed S s) : Hclosed S (updateById s i f) := by
  intro c' hc' hex
  obtain ⟨c, hm, hceq⟩ := List.mem_map.mp hc'
  subst hceq
  by_cases hci : (c.id == i) = true
  · simp only [hci, if_true]
    rw [hfid]
    rw [beq_iff_eq.mp hci]
    exact hSi
  · simp only [hci, Bool.false_eq_true, if_false] at hex ⊢
    exact h c hm hex

theorem findById_incChildren (s : Store) (i j : Nat) (d : Int) :
    findById (incChildren s i d) j = (findById s j).map
      (fun c => if c.id == i
        then { c with childrenCount := c.childrenCount + d } else c) :=
  findById_updateById s i j _ (fun _ => rfl)

theorem findById_saveMoved (s : Store) (c0 : Category) (j : Nat) :
    findById (saveMoved s c0) j = (findById s j).map
      (fun x => if x.id == c0.id
        then { x with parentId := c0.parentId, ancestors := c0.ancestors,
                      level := c0.level } else x) :=
  findById_updateById s c0.id j _ (fun _ => rfl)

theorem moveCategory_missing_parent_eq {fuel : Nat} {s : Store}
    {cid np op : Nat} {c : Category}
    (hc : findById s cid = some c) (hcp : c.parentId = some op)
    (hnp : findById s np = none) :
    moveCategory fuel s cid (some np) =
      some (incChildren s op (-1), .error .parentNotFound) := by
  have hnp1 : findById (incChildren s op (-1)) np = none := by
    rw [findById_incChildren, hnp]
    rfl
  simp [moveCategory, hc, hcp, hnp1]

theorem moveCategory_ok_elim {fuel : Nat} {s st : Store} {cid np op : Nat}
    {c npc cret : Category}
    (hc : findById s cid = some c) (hcp : c.parentId = some op)
    (hnp : findById (incChildren s op (-1)) np = some npc)
    (h : moveCategory fuel s cid (some np) = some (st, .ok cret)) :
    cret = { c with parentId := some np, ancestors := npc.ancestors ++ [np],
                    level := npc.level + 1 } ∧
    updateDescendants fuel
      (saveMoved (incChildren (incChildren s op (-1)) np 1) cret) cid
      cret.ancestors cret.level = some st := by
  simp only [moveCategory, hc, hcp, hnp] at h
  cases hud : updateDescendants fuel
      (saveMoved (incChildren (incChildren s op (-1)) np 1)
        { c with parentId := some np, ancestors := npc.ancestors ++ [np],
                 level := npc.level + 1 }) cid
      (npc.ancestors ++ [np]) (npc.level + 1) with
  | none =>
    rw [hud] at h
    exact Option.noConfusion h
  | some t1 =>
    rw [hud] at h
    simp only [Option.some.injEq, Prod.mk.injEq, Except.ok.injEq] at h
    obtain ⟨hst, hret⟩ := h
    subst hst
    subst hret
    exact ⟨rfl, hud⟩

theorem list_filterMap_eq_map {α β : Type} (l : List α) (f : α → Option β)
    (g : α → β) (h : ∀ x ∈ l, f x = some (g x)) : l.filterMap f = l.map g := by
  induction l with
  | nil => rfl
  | cons a t ih =>
    simp only [List.filterMap_cons, h a (List.mem_cons_self a t), List.map_cons]
    rw [ih (fun x hx => h x (List.mem_cons_of_mem a hx))]

/-- C1: on the four-node forest `mvStore`, moving `m(1)` (whose subtree is
`c(2)` with child `g(3)`) under the root `p(0)` completes, but afterwards the
depth-2 descendant `g` carries `ancestors = [0, 1]` and `level = 2` although
its parent `c(2)` has `ancestors = [0, 1]`: invariant 2 would require
`g.ancestors = c.ancestors ++ [2] = [0, 1, 2]`.  The fixup visited `g` twice
(once per recursion level) and the last write treated it as a direct child of
the moved node, so the claimed "each descendant visited exactly once, whole
subtree consistent" fails on the code. -/
theorem moveCategory_fixup_corrupts_deep_descendant :
    (moveCategory 10 mvStore 1 (some 0)).map (fun r =>
      ((findById r.1 3).map (fun g => (g.parentId, g.ancestors, g.level)),
       (findById r.1 2).map (fun x => (x.ancestors, x.level)))) =
      some (some (some 2, [0, 1], 2), some ([0, 1], 2)) ∧
    ([0, 1] : List Nat) ≠ [0, 1] ++ [2] :=
  ⟨rfl, by decide⟩

/-- C2: deleting `s(2)` from the chain `e(1) → s(2) → i(3) → x(4)` reparents
only the direct child `i` (which ends consistent), while the depth-2
descendant `x` keeps `parentId = 3`, `ancestors = [1, 2, 3]` and `level = 3`
although its parent `i` now has `ancestors = [1]`: invariant 2
(`x.ancestors = i.ancestors ++ [3] = [1, 3]`) is violated after the delete
completes, contradicting the claim that the invariants hold at depth ≥ 2. -/
theorem deleteCategory_stale_grandchild :
    ((findById (deleteCategory chainStore 2).1 4).map
      (fun x => (x.parentId, x.ancestors, x.level)) =
        some (some 3, [1, 2, 3], 3)) ∧
    ((findById (deleteCategory chainStore 2).1 3).map
      (fun x => (x.parentId, x.ancestors, x.level)) = some (some 1, [1], 1)) ∧
    ([1, 2, 3] : List Nat) ≠ [1] ++ [3] :=
  ⟨rfl, rfl, by decide⟩

/-- C3: deleting `s(2)` (parent `e(1)`, one direct child `i(3)`) from
`chainStore` leaves `e.childrenCount = 0` although exactly one record
(`i`, reparented to `e`) has `parentId = 1`: the code decrements the parent's
counter for the lost child but never accounts for the children it gains by
reparenting, so `childrenCount(P) = #{nodes with parentId = P}` fails and the
parent's count is not unchanged as the claim (spec Scenario C) requires. -/
theorem deleteCategory_breaks_childrenCount :
    ((findById (deleteCategory chainStore 2).1 1).map Category.childrenCount =
      some 0) ∧
    countChildren (deleteCategory chainStore 2).1 1 = 1 ∧ (0 : Int) ≠ 1 :=
  ⟨rfl, rfl, by decide⟩

/-- C5 counterexample: a create call whose `parentId` (99) resolves to no
record does not fail with NotFound — it inserts a node (with the dangling
`parentId` stored, empty `ancestors`, `level` 0) into the empty store. -/
theorem createCategory_no_notFound :
    findById ([] : Store) 99 = none ∧
    (createCategory [] 1 "x" (some 99) true 0).1 =
      [{ id := 1, name := "x", parentId := some 99, ancestors := [],
         level := 0, childrenCount := 0, isActive := true, order := 0 }] :=
  ⟨rfl, rfl⟩

/-- C5 (amended): when the supplied `parentId` does not resolve,
`createCategory` does not fail and creates the node anyway: the node is
appended with the dangling `parentId` stored, `ancestors = []`, `level = 0`,
and the parent `childrenCount` increment is a no-op, leaving every other
record unchanged. -/
theorem createCategory_unresolved_parent (s : Store) (newId : Nat)
    (nm : String) (pid : Nat) (act : Bool) (ord : Int)
    (hpid : findById s pid = none) (hfresh : newId ≠ pid) :
    createCategory s newId nm (some pid) act ord =
      (s ++ [orphanNode newId nm pid act ord],
        orphanNode newId nm pid act ord) := by
  have hnomem : ∀ c ∈ s ++ [orphanNode newId nm pid act ord], c.id ≠ pid := by
    intro c hc
    rcases List.mem_append.mp hc with hc' | hc'
    · exact findById_eq_none.mp hpid c hc'
    · have hco : c = orphanNode newId nm pid act ord := by simpa using hc'
      rw [hco]
      exact hfresh
  simp only [createCategory, hpid, incChildren, orphanNode]
  rw [updateById_notMem _ _ _ (by simpa [orphanNode] using hnomem)]

/-- C5 witness: the amended create theorem applied to `oneStore` with the
unresolvable parent id 99. -/
theorem createCategory_unresolved_parent_witness :
    findById oneStore 99 = none ∧ (2 : Nat) ≠ 99 ∧
    createCategory oneStore 2 "k" (some 99) true 0 =
      (oneStore ++ [orphanNode 2 "k" 99 true 0], orphanNode 2 "k" 99 true 0) :=
  ⟨rfl, by decide,
    createCategory_unresolved_parent oneStore 2 "k" 99 true 0 rfl (by decide)⟩

/-- C6 counterexample: for the unknown id 99, `getAncestors` does not fail
with NotFound — it returns the empty sequence, exactly like `getChildren`
and `getDescendants`; the claimed asymmetry does not exist in the code. -/
theorem getAncestors_unknown_returns_empty :
    findById oneStore 99 = none ∧ getAncestors oneStore 99 = [] ∧
    getChildren oneStore 99 = [] ∧ getDescendants oneStore 99 = [] :=
  ⟨rfl, rfl, rfl, rfl⟩

/-- C6 (amended): for an id that does not resolve (and is not dangling in any
record, as invariant 3 guarantees), all three reads `getAncestors`,
`getChildren` and `getDescendants` return the empty sequence; none of them
fails. -/
theorem reads_unknown_id_empty (s : Store) (i : Nat)
    (hfind : findById s i = none)
    (hnoparent : ∀ c ∈ s, c.parentId ≠ some i)
    (hnoanc : ∀ c ∈ s, i ∉ c.ancestors) :
    getAncestors s i = [] ∧ getChildren s i = [] ∧ getDescendants s i = [] := by
  refine ⟨?_, ?_, ?_⟩
  · simp [getAncestors, hfind]
  · unfold getChildren
    have hfil : s.filter (fun c => c.parentId == some i && c.isActive) = [] := by
      rw [List.filter_eq_nil_iff]
      intro a ha
      simp [hnoparent a ha]
    rw [hfil]
    rfl
  · unfold getDescendants
    have hfil : s.filter (fun c => c.ancestors.contains i && c.isActive) = [] := by
      rw [List.filter_eq_nil_iff]
      intro a ha
      simp [hnoanc a ha]
    rw [hfil]
    rfl

/-- C6 witness: the amended unknown-id theorem applied to `oneStore` and the
unknown id 99. -/
theorem reads_unknown_id_empty_witness :
    findById oneStore 99 = none ∧
    (getAncestors oneStore 99 = [] ∧ getChildren oneStore 99 = [] ∧
      getDescendants oneStore 99 = []) :=
  ⟨rfl, reads_unknown_id_empty oneStore 99 rfl (by decide) (by decide)⟩

/-- C9 counterexample: in `outOfOrderStore` the ancestors of `c(3)` are
`[1, 2]` (root `a(1)`, then `b(2)`), but record `b` precedes record `a` in
the store and the batch lookup in `getFullPath` is unsorted, so the rendered
path is `"b > a > c"` rather than the root-first `"a > b > c"` the claim
requires. -/
theorem getCategoryWithPath_wrong_order :
    (getCategoryWithPath outOfOrderStore 3).map Prod.snd = some "b > a > c" ∧
    ("b > a > c" : String) ≠ "a > b > c" :=
  ⟨rfl, by decide⟩

/-- C9 (amended): `getCategoryWithPath` joins the ancestors' names in store
order; it equals the root-first rendering exactly when the node's ancestors
occur in the store in chain order (as they do when every node is created
after its parent, e.g. Scenario E). -/
theorem getCategoryWithPath_rootFirst {s : Store} {cid : Nat} {c : Category}
    (hnd : NodupIds s) (hc : findById s cid = some c)
    (hord : (s.filter (fun x => c.ancestors.contains x.id)).map Category.id
      = c.ancestors) :
    getCategoryWithPath s cid = some (c, rootFirstFullPath s c) := by
  have h2 : ((s.filter (fun x => c.ancestors.contains x.id)).map
        Category.id).filterMap (fun a => (findById s a).map (·.name)) =
      (s.filter (fun x => c.ancestors.contains x.id)).map (·.name) := by
    rw [List.filterMap_map]
    apply list_filterMap_eq_map
    intro x hx
    have hxs : x ∈ s := (List.mem_filter.mp hx).1
    show (findById s x.id).map (·.name) = some x.name
    rw [nodup_findById hnd hxs]
    rfl
  rw [hord] at h2
  simp only [getCategoryWithPath, hc, getFullPath, rootFirstFullPath, h2]

/-- C9 witness: on the Scenario E store the amended theorem yields
`"Electronics > Smartphones > iPhone"` for the iPhone node. -/
theorem getCategoryWithPath_rootFirst_witness :
    NodupIds scenEStore ∧
    ((scenEStore.filter
        (fun x => (mkCat 3 "iPhone" (some 2) [1, 2] 2 0).ancestors.contains
          x.id)).map Category.id = [1, 2]) ∧
    getCategoryWithPath scenEStore 3 =
      some (mkCat 3 "iPhone" (some 2) [1, 2] 2 0,
        "Electronics > Smartphones > iPhone") :=
  ⟨by decide, by decide,
    (getCategoryWithPath_rootFirst (by decide)
      (rfl : findById scenEStore 3 =
        some (mkCat 3 "iPhone" (some 2) [1, 2] 2 0)) (by decide)).trans rfl⟩

/-- C10: when `cid` resolves to a node with parent `op` but the non-null new
parent id `np` does not resolve, `moveCategory` first decrements `op`'s
`childrenCount` and only then throws: the failed call returns the
`parentNotFound` error with the store already mutated, the moved node's own
record (parentId, ancestors, level) untouched, and the old parent's stored
counter exactly one below the actual number of records whose `parentId`
references it — the decrement is not rolled back. -/
theorem moveCategory_missing_parent_decrements (fuel : Nat) (s : Store)
    (cid np op : Nat) (c pc : Category)
    (hc : findById s cid = some c) (hcp : c.parentId = some op)
    (hop : findById s op = some pc) (hnp : findById s np = none)
    (hco : cid ≠ op) (hcnt : pc.childrenCount = (countChildren s op : Int)) :
    moveCategory fuel s cid (some np) =
      some (incChildren s op (-1), .error .parentNotFound) ∧
    findById (incChildren s op (-1)) cid = some c ∧
    (findById (incChildren s op (-1)) op).map Category.childrenCount =
      some ((countChildren (incChildren s op (-1)) op : Int) - 1) := by
  refine ⟨moveCategory_missing_parent_eq hc hcp hnp, ?_, ?_⟩
  · rw [findById_incChildren, hc]
    have hne : ¬ ((c.id == op) = true) := by
      rw [findById_id hc]
      simpa using hco
    show some (if (c.id == op) = true
      then { c with childrenCount := c.childrenCount + (-1) } else c) = some c
    rw [if_neg hne]
  · rw [findById_incChildren, hop]
    have heq : (pc.id == op) = true := by
      rw [findById_id hop]
      simp
    show some ((if (pc.id == op) = true
        then { pc with childrenCount := pc.childrenCount + (-1) }
        else pc).childrenCount) =
      some ((countChildren (incChildren s op (-1)) op : Int) - 1)
    rw [if_pos heq]
    show some (pc.childrenCount + (-1)) =
      some ((countChildren (incChildren s op (-1)) op : Int) - 1)
    have hcc : countChildren (incChildren s op (-1)) op = countChildren s op :=
      countChildren_updateById s op
        (fun x => { x with childrenCount := x.childrenCount + (-1) })
        (fun _ => rfl) op
    rw [hcc, hcnt]
    congr 1

/-- C10 witness: the failed-move theorem applied to `failStore` (root `r(1)`
with one child `k(2)`) and the unresolvable new parent id 99. -/
theorem moveCategory_missing_parent_decrements_witness :
    findById failStore 2 = some (mkCat 2 "k" (some 1) [1] 1 0) ∧
    findById failStore 99 = none ∧
    (moveCategory 5 failStore 2 (some 99) =
        some (incChildren failStore 1 (-1), .error .parentNotFound) ∧
      findById (incChildren failStore 1 (-1)) 2 =
        some (mkCat 2 "k" (some 1) [1] 1 0) ∧
      (findById (incChildren failStore 1 (-1)) 1).map Category.childrenCount =
        some ((countChildren (incChildren failStore 1 (-1)) 1 : Int) - 1)) :=
  ⟨rfl, rfl,
    moveCategory_missing_parent_decrements 5 failStore 2 99 1
      (mkCat 2 "k" (some 1) [1] 1 0) (mkCat 1 "r" none [] 0 1)
      rfl rfl rfl rfl (by decide) (by decide)⟩

/-- C8 counterexample: in `inactStore` the inactive node 2 has `parentId = 1`,
so the root 1 is reachable from it by following parent links, yet
`getDescendants 1` returns the empty sequence: the result is not exactly the
set of nodes whose parent chain passes through the root, because the query
filters on `isActive`. -/
theorem getDescendants_misses_inactive :
    InChain inactStore 1 2 ∧ getDescendants inactStore 1 = [] := by
  constructor
  · exact InChain.parent
      (show findById inactStore 2 = some ⟨2, "h", some 1, [1], 1, 0, false, 0⟩
        from rfl) rfl
  · rfl

/-- C8 (amended): for a store with unique ids satisfying invariant 2
(`wfAnc`), `getDescendants root` returns exactly the ACTIVE nodes from which
`root` is reachable by repeatedly following `parentId` links; inactive
descendants are filtered out. -/
theorem getDescendants_exactly_reachable (s : Store) (hnd : NodupIds s)
    (hwf : wfAnc s = true) (root : Nat) (c : Category) (hc : c ∈ s) :
    c ∈ getDescendants s root ↔ (c.isActive = true ∧ InChain s root c.id) := by
  unfold getDescendants
  rw [mem_sortLe, List.mem_filter]
  constructor
  · rintro ⟨_, hcond⟩
    rw [Bool.and_eq_true] at hcond
    obtain ⟨hcont, hact⟩ := hcond
    have hmem : root ∈ c.ancestors := by simpa using hcont
    exact ⟨hact, mem_ancestors_inChain hnd hwf c.ancestors.length c hc
      le_rfl root hmem⟩
  · rintro ⟨hact, hchain⟩
    refine ⟨hc, ?_⟩
    rw [Bool.and_eq_true]
    have hr : root ∈ c.ancestors :=
      inChain_mem_ancestors hwf hchain c (nodup_findById hnd hc)
    exact ⟨by simpa using hr, hact⟩

/-- C8 witness: the amended descendant theorem applied to the active chain
`r(1) → m(2) → g(3)` at the grandchild `g`. -/
theorem getDescendants_exactly_reachable_witness :
    NodupIds actChainStore ∧ wfAnc actChainStore = true ∧
    (mkCat 3 "g" (some 2) [1, 2] 2 0 ∈ getDescendants actChainStore 1 ↔
      ((mkCat 3 "g" (some 2) [1, 2] 2 0).isActive = true ∧
        InChain actChainStore 1 (mkCat 3 "g" (some 2) [1, 2] 2 0).id)) :=
  ⟨by decide, by decide,
    getDescendants_exactly_reachable actChainStore (by decide) (by decide) 1
      (mkCat 3 "g" (some 2) [1, 2] 2 0) (by decide)⟩

theorem moveCategory_none_root {fuel : Nat} {s : Store} {cid np : Nat}
    {c npc : Category}
    (hc : findById s cid = some c) (hcp : c.parentId = none)
    (hnp : findById s np = some npc)
    (hud : updateDescendants fuel
      (saveMoved (incChildren s np 1)
        { c with parentId := some np, ancestors := npc.ancestors ++ [np],
                 level := npc.level + 1 }) cid
      (npc.ancestors ++ [np]) (npc.level + 1) = none) :
    moveCategory fuel s cid (some np) = none := by
  simp [moveCategory, hc, hcp, hnp, hud]

/-- C4: `smartphones(2)` is a descendant of `electronics(1)` in `chainStore`,
and the code has no cycle check: `move(1, some 2)` does not fail with any
CyclicMove error — it saves node 1 carrying itself in its own `ancestors`
and the descendant fixup then recurses on node 1 forever, so, for every
fuel, the fuelled embedding answers the out-of-fuel result `none`: the
operation neither raises CyclicMove nor terminates with an intact tree. -/
theorem moveCategory_cyclic_unchecked_diverges :
    ∀ fuel : Nat, moveCategory fuel chainStore 1 (some 2) = none := by
  intro fuel
  refine @moveCategory_none_root fuel chainStore 1 2 (mkCat 1 "e" none [] 0 1)
    (mkCat 2 "s" (some 1) [1] 1 1) rfl rfl rfl ?_
  exact updateDescendants_cycle fuel _
    ((mkCat 2 "s" (some 1) [1] 1 1).ancestors ++ [2])
    ((mkCat 2 "s" (some 1) [1] 1 1).level + 1)
    ⟨1, "e", some 2, [1, 2], 2, 1, true, 0⟩
    [⟨2, "s", some 1, [1], 1, 2, true, 0⟩,
     ⟨3, "i", some 2, [1, 2], 2, 1, true, 0⟩,
     ⟨4, "x", some 3, [1, 2, 3], 3, 0, true, 0⟩]
    (by decide) (by decide)

/-- C7: round trip.  In a store with unique ids where `n` has parent `op`
(with the invariant fields `ancestors`/`level` consistent at `n`), where the
subtree of `n` is ancestor-closed (every record with an ancestor inside the
subtree is itself in the subtree, as invariant 2 guarantees), and where the
new parent `p` and the old parent `op`, together with all their ancestors,
lie outside the subtree of `n` (i.e. `p` is a valid, non-descendant parent),
`move(n, p)` followed by `move(n, op)` — both completing — restores `n`'s
`ancestors` and `level` to their original values, both in the returned
record and in the final store (with `parentId` back to `op`). -/
theorem moveCategory_roundtrip_restores
    (fuel1 fuel2 : Nat) (s s1 s2 : Store) (n op p : Nat)
    (cN cOP cP c1 c2 : Category)
    (hnd : NodupIds s)
    (hN : findById s n = some cN) (hNP : cN.parentId = some op)
    (hOP : findById s op = some cOP) (hP : findById s p = some cP)
    (hanc : cN.ancestors = cOP.ancestors ++ [op])
    (hlvl : cN.level = cOP.level + 1)
    (hcl : Hclosed (subtreeP s n) s)
    (hOPd : ¬ subtreeP s n op)
    (hOPanc : ∀ a ∈ cOP.ancestors, ¬ subtreeP s n a)
    (hPd : ¬ subtreeP s n p)
    (hPanc : ∀ a ∈ cP.ancestors, ¬ subtreeP s n a)
    (h1 : moveCategory fuel1 s n (some p) = some (s1, .ok c1))
    (h2 : moveCategory fuel2 s1 n (some op) = some (s2, .ok c2)) :
    c2.ancestors = cN.ancestors ∧ c2.level = cN.level ∧
    (findById s2 n).map (fun x => (x.parentId, x.ancestors, x.level)) =
      some (some op, cN.ancestors, cN.level) := by
  have hSn : subtreeP s n n := Or.inl rfl
  have hidN : cN.id = n := findById_id hN
  have hidOP : cOP.id = op := findById_id hOP
  have hnop : n ≠ op := fun he => hOPd (by rw [← he]; exact hSn)
  have hnp' : n ≠ p := fun he => hPd (by rw [← he]; exact hSn)
  have hfnd1 : findById (incChildren s op (-1)) p =
      some (if cP.id == op
        then { cP with childrenCount := cP.childrenCount + (-1) } else cP) := by
    rw [findById_incChildren, hP]
    rfl
  have hcPanc : (if cP.id == op
      then { cP with childrenCount := cP.childrenCount + (-1) }
      else cP).ancestors = cP.ancestors := by
    split <;> rfl
  have hcPlvl : (if cP.id == op
      then { cP with childrenCount := cP.childrenCount + (-1) }
      else cP).level = cP.level := by
    split <;> rfl
  obtain ⟨hc1, hud1⟩ := moveCategory_ok_elim hN hNP hfnd1 h1
  have hc1anc : c1.ancestors = cP.ancestors ++ [p] := by
    rw [hc1, hcPanc]
  have hc1lvl : c1.level = cP.level + 1 := by
    rw [hc1, hcPlvl]
  have hc1pid : c1.parentId = some p := by rw [hc1]
  have hc1id : c1.id = n := by rw [hc1]; exact hidN
  have hc1ancS : ∀ a ∈ c1.ancestors, ¬ subtreeP s n a := by
    rw [hc1anc]
    intro a ha
    rcases List.mem_append.mp ha with ha' | ha'
    · exact hPanc a ha'
    · have hap : a = p := by simpa using ha'
      rw [hap]
      exact hPd
  have hSc1 : subtreeP s n c1.id := by rw [hc1id]; exact hSn
  have hfa : findById (incChildren s op (-1)) n = some cN := by
    rw [findById_incChildren, hN]
    show some (if (cN.id == op) = true
      then { cN with childrenCount := cN.childrenCount + (-1) } else cN) =
      some cN
    rw [if_neg (by rw [hidN]; simpa using hnop)]
  have hfb : findById (incChildren (incChildren s op (-1)) p 1) n =
      some cN := by
    rw [findById_incChildren, hfa]
    show some (if (cN.id == p) = true
      then { cN with childrenCount := cN.childrenCount + 1 } else cN) = some cN
    rw [if_neg (by rw [hidN]; simpa using hnp')]
  have hfc : findById
      (saveMoved (incChildren (incChildren s op (-1)) p 1) c1) n =
      some c1 := by
    rw [findById_saveMoved, hfb]
    show some (if (cN.id == c1.id) = true
      then { cN with parentId := c1.parentId, ancestors := c1.ancestors,
                     level := c1.level } else cN) = some c1
    rw [if_pos (by rw [hidN, hc1id]; simp)]
    rw [hc1]
  have hclA : Hclosed (subtreeP s n) (incChildren s op (-1)) :=
    hclosed_updateById_keep (fun _ => rfl) (fun _ => rfl) hcl
  have hclB : Hclosed (subtreeP s n)
      (incChildren (incChildren s op (-1)) p 1) :=
    hclosed_updateById_keep (fun _ => rfl) (fun _ => rfl) hclA
  have hclC : Hclosed (subtreeP s n)
      (saveMoved (incChildren (incChildren s op (-1)) p 1) c1) :=
    hclosed_updateById_inS (fun _ => rfl) hSc1 hclB
  have hndA : NodupIds (incChildren s op (-1)) :=
    nodupIds_updateById (fun _ => rfl) hnd
  have hndB : NodupIds (incChildren (incChildren s op (-1)) p 1) :=
    nodupIds_updateById (fun _ => rfl) hndA
  have hndC : NodupIds
      (saveMoved (incChildren (incChildren s op (-1)) p 1) c1) :=
    nodupIds_updateById (fun _ => rfl) hndB
  have hev1 := updateDescendants_frame fuel1 hSn hclC hndC hud1
  have hf1n : findById s1 n = some c1 := by
    have hfr := evol_findById_frame hev1 hndC (findById_mem hfc) hc1ancS
    rw [hc1id] at hfr
    exact hfr
  have hfoa : findById (incChildren s op (-1)) op =
      some { cOP with childrenCount := cOP.childrenCount + (-1) } := by
    rw [findById_incChildren, hOP]
    show some (if (cOP.id == op) = true
      then { cOP with childrenCount := cOP.childrenCount + (-1) } else cOP) =
      some { cOP with childrenCount := cOP.childrenCount + (-1) }
    rw [if_pos (by rw [hidOP]; simp)]
  obtain ⟨rOP, hfob, hranc, hrlvl, hrid⟩ :
      ∃ r, findById (incChildren (incChildren s op (-1)) p 1) op = some r ∧
        r.ancestors = cOP.ancestors ∧ r.level = cOP.level ∧ r.id = op := by
    rw [findById_incChildren, hfoa]
    refine ⟨_, rfl, ?_, ?_, ?_⟩
    · dsimp only
      split <;> rfl
    · dsimp only
      split <;> rfl
    · dsimp only
      split <;> exact hidOP
  have hfoc : findById
      (saveMoved (incChildren (incChildren s op (-1)) p 1) c1) op =
      some rOP := by
    rw [findById_saveMoved, hfob]
    show some (if (rOP.id == c1.id) = true
      then { rOP with parentId := c1.parentId, ancestors := c1.ancestors,
                      level := c1.level } else rOP) = some rOP
    rw [if_neg (by rw [hrid, hc1id]; simpa using Ne.symm hnop)]
  have hrancS : ∀ a ∈ rOP.ancestors, ¬ subtreeP s n a := by
    rw [hranc]
    exact hOPanc
  have hf1op : findById s1 op = some rOP := by
    have hfr := evol_findById_frame hev1 hndC (findById_mem hfoc) hrancS
    rw [hrid] at hfr
    exact hfr
  have hfnd2 : findById (incChildren s1 p (-1)) op =
      some (if rOP.id == p
        then { rOP with childrenCount := rOP.childrenCount + (-1) }
        else rOP) := by
    rw [findById_incChildren, hf1op]
    rfl
  obtain ⟨hc2, hud2⟩ := moveCategory_ok_elim hf1n hc1pid hfnd2 h2
  have hr2anc : (if rOP.id == p
      then { rOP with childrenCount := rOP.childrenCount + (-1) }
      else rOP).ancestors = cOP.ancestors := by
    split <;> exact hranc
  have hr2lvl : (if rOP.id == p
      then { rOP with childrenCount := rOP.childrenCount + (-1) }
      else rOP).level = cOP.level := by
    split <;> exact hrlvl
  have hc2anc : c2.ancestors = cN.ancestors := by
    rw [hc2, hr2anc, hanc]
  have hc2lvl : c2.level = cN.level := by
    rw [hc2, hr2lvl, hlvl]
  have hc2pid : c2.parentId = some op := by rw [hc2]
  have hc2id : c2.id = n := by rw [hc2]; exact hc1id
  have hcl1 : Hclosed (subtreeP s n) s1 := evol_hclosed hev1 hclC
  have hnd1 : NodupIds s1 := evol_nodupIds hev1 hndC
  have hSc2 : subtreeP s n c2.id := by rw [hc2id]; exact hSn
  have hga : findById (incChildren s1 p (-1)) n = some c1 := by
    rw [findById_incChildren, hf1n]
    show some (if (c1.id == p) = true
      then { c1 with childrenCount := c1.childrenCount + (-1) } else c1) =
      some c1
    rw [if_neg (by rw [hc1id]; simpa using hnp')]
  have hgb : findById (incChildren (incChildren s1 p (-1)) op 1) n =
      some c1 := by
    rw [findById_incChildren, hga]
    show some (if (c1.id == op) = true
      then { c1 with childrenCount := c1.childrenCount + 1 } else c1) = some c1
    rw [if_neg (by rw [hc1id]; simpa using hnop)]
  have hgc : findById
      (saveMoved (incChildren (incChildren s1 p (-1)) op 1) c2) n =
      some c2 := by
    rw [findById_saveMoved, hgb]
    show some (if (c1.id == c2.id) = true
      then { c1 with parentId := c2.parentId, ancestors := c2.ancestors,
                     level := c2.level } else c1) = some c2
    rw [if_pos (by rw [hc1id, hc2id]; simp)]
    rw [hc2]
  have hclA2 : Hclosed (subtreeP s n) (incChildren s1 p (-1)) :=
    hclosed_updateById_keep (fun _ => rfl) (fun _ => rfl) hcl1
  have hclB2 : Hclosed (subtreeP s n)
      (incChildren (incChildren s1 p (-1)) op 1) :=
    hclosed_updateById_keep (fun _ => rfl) (fun _ => rfl) hclA2
  have hclC2 : Hclosed (subtreeP s n)
      (saveMoved (incChildren (incChildren s1 p (-1)) op 1) c2) :=
    hclosed_updateById_inS (fun _ => rfl) hSc2 hclB2
  have hndA2 : NodupIds (incChildren s1 p (-1)) :=
    nodupIds_updateById (fun _ => rfl) hnd1
  have hndB2 : NodupIds (incChildren (incChildren s1 p (-1)) op 1) :=
    nodupIds_updateById (fun _ => rfl) hndA2
  have hndC2 : NodupIds
      (saveMoved (incChildren (incChildren s1 p (-1)) op 1) c2) :=
    nodupIds_updateById (fun _ => rfl) hndB2
  have hev2 := updateDescendants_frame fuel2 hSn hclC2 hndC2 hud2
  have hc2ancS : ∀ a ∈ c2.ancestors, ¬ subtreeP s n a := by
    rw [hc2anc, hanc]
    intro a ha
    rcases List.mem_append.mp ha with ha' | ha'
    · exact hOPanc a ha'
    · have hao : a = op := by simpa using ha'
      rw [hao]
      exact hOPd
  have hf2n : findById s2 n = some c2 := by
    have hfr := evol_findById_frame hev2 hndC2 (findById_mem hgc) hc2ancS
    rw [hc2id] at hfr
    exact hfr
  refine ⟨hc2anc, hc2lvl, ?_⟩
  rw [hf2n]
  show some (c2.parentId, c2.ancestors, c2.level) =
    some (some op, cN.ancestors, cN.level)
  rw [hc2pid, hc2anc, hc2lvl]

/-- C7 witness: the round-trip theorem applied to `rtStore`: `n(2)` moves
from under `a(1)` to under `p(3)` and back, and its `ancestors`/`level`
return to `[1]`/`1`. -/
theorem moveCategory_roundtrip_restores_witness :
    moveCategory 20 rtStore 2 (some 3) = some (rtStore1, .ok rtCat1) ∧
    moveCategory 20 rtStore1 2 (some 1) = some (rtStore2, .ok rtCat2) ∧
    (rtCat2.ancestors = [1] ∧ rtCat2.level = 1 ∧
      (findById rtStore2 2).map (fun x => (x.parentId, x.ancestors, x.level)) =
        some (some 1, [1], 1)) :=
  ⟨by decide, by decide,
    moveCategory_roundtrip_restores 20 20 rtStore rtStore1 rtStore2 2 1 3
      (mkCat 2 "n" (some 1) [1] 1 1) (mkCat 1 "a" none [] 0 1)
      (mkCat 3 "p" none [] 0 0) rtCat1 rtCat2
      (by decide) rfl rfl rfl rfl (by decide) (by decide)
      (by decide) (by decide) (by decide) (by decide) (by decide)
      (by decide) (by decide)⟩
